import Mathlib

/-!
Verification of the slarty artifact cache against its specification.

The Go sources are shallowly embedded: effectful calls (git subprocesses,
filesystem stat and copies, the repository backends, the build command)
are modelled by explicit environments and state passing; each embedded
definition mirrors one Go function of the repository.
-/

/-! ## Configuration data model (slarty/configuration.go) -/

/-- Mirrors slarty.ArtifactConfig.  The Go field ArtifactPrefix is called
artifactPfx here. -/
structure ArtifactConfig where
  name : String
  directories : List String
  command : String
  outputDirectory : String
  deployLocation : String
  artifactPfx : String
deriving DecidableEq, Repr

/-- Mirrors slarty.Asset. -/
structure Asset where
  name : String
  filename : String
  deployLocation : String
deriving DecidableEq, Repr

/-- Mirrors slarty.ArtifactsConfig (repository options elided; the backend
choice is modelled directly by the adapters below). -/
structure ArtifactsConfig where
  application : String
  rootDirectory : String
  artifacts : List ArtifactConfig
  assets : List Asset
deriving DecidableEq, Repr

/-- Mirrors ArtifactsConfig.GetArtifactConfig: linear scan returning the
first section whose Name equals the requested name, else an error. -/
def GetArtifactConfig (ac : ArtifactsConfig) (artifactname : String) :
    Except String ArtifactConfig :=
  match ac.artifacts.find? (fun section0 => decide (section0.name = artifactname)) with
  | some section0 => .ok section0
  | none => .error ("config for " ++ artifactname ++ " name not found in artifacts.json")

/-! ## Fingerprint engine (slarty/githash.go) -/

/-- Environment for HashDirectories: the working directory, the stat-based
existence check, and the two git subprocesses (ls-files -s piped into
hash-object --stdin), each returning output or a nonzero-exit error. -/
structure HashEnv where
  cwd : Except String String
  dirExists : String → Bool
  gitLsFiles : String → List String → Except String String
  gitHashObject : String → Except String String

/-- Leading newline characters removed, as by the Go strings.Trim cutset. -/
def dropNl (l : List Char) : List Char :=
  l.dropWhile (fun c => c == '\n')

/-- Mirrors strings.Trim(s, the newline cutset): newline characters removed
from both ends of the string. -/
def trimNewlines (s : String) : String :=
  String.mk ((dropNl (dropNl s.data).reverse).reverse)

/-- Mirrors slarty.HashDirectories: resolve the __DIR__ root against the
working directory, require the root and every listed directory to exist,
run git ls-files -s on the directories, hash the listing with
git hash-object --stdin, and trim newlines off the output. -/
def HashDirectories (env : HashEnv) (root : String) (directories : List String) :
    Except String String :=
  match (if root == "__DIR__" then env.cwd else .ok root) with
  | .error e => .error e
  | .ok rootDir =>
    if env.dirExists rootDir = false then
      .error (rootDir ++ " directory does not exist")
    else
      match directories.find? (fun dir => !env.dirExists (rootDir ++ "/" ++ dir)) with
      | some dir => .error ((rootDir ++ "/" ++ dir) ++ " directory does not exist")
      | none =>
        match env.gitLsFiles rootDir directories with
        | .error e => .error e
        | .ok out =>
          match env.gitHashObject out with
          | .error e => .error e
          | .ok h => .ok (trimNewlines h)

/-- Mirrors slarty.GetArtifactName: look the unit up in the configuration,
fingerprint its directories, and format prefix-hash.tar.gz. -/
def GetArtifactName (env : HashEnv) (artifactname : String) (ac : ArtifactsConfig) :
    Except String String :=
  match GetArtifactConfig ac artifactname with
  | .error e => .error e
  | .ok config =>
    match HashDirectories env ac.rootDirectory config.directories with
    | .error e => .error e
    | .ok hash => .ok (config.artifactPfx ++ "-" ++ hash ++ ".tar.gz")

/-! ### Helper lemmas for the fingerprint layer -/

theorem head?_dropWhile_false {p : Char → Bool} {l : List Char} {a : Char}
    (h : (l.dropWhile p).head? = some a) : p a = false := by
  induction l with
  | nil => simp [List.dropWhile] at h
  | cons b t ih =>
    by_cases hb : p b
    · rw [List.dropWhile_cons_of_pos hb] at h
      exact ih h
    · rw [List.dropWhile_cons_of_neg hb] at h
      simp at h
      rw [← h]
      exact eq_false_of_ne_true hb

theorem trimNewlines_no_trailing_newline (s : String) :
    (trimNewlines s).data.getLast? ≠ some '\n' := by
  intro h
  unfold trimNewlines at h
  simp only [List.getLast?_reverse] at h
  have := head?_dropWhile_false (p := fun c => c == '\n') h
  simp at this

/-- Claim C6: HashDirectories signals an error whenever the resolved root
directory does not exist or any listed directory is missing under it, and
on success the returned hash string carries no trailing newline. -/
theorem hashDirectories_missing_and_trim (env : HashEnv) (root : String)
    (directories : List String) (rootDir : String)
    (hroot : (if root == "__DIR__" then env.cwd else .ok root) = .ok rootDir) :
    (env.dirExists rootDir = false →
      ∃ e, HashDirectories env root directories = .error e)
    ∧ (∀ d, d ∈ directories → env.dirExists (rootDir ++ "/" ++ d) = false →
      ∃ e, HashDirectories env root directories = .error e)
    ∧ (∀ h, HashDirectories env root directories = .ok h →
      h.data.getLast? ≠ some '\n') := by
  refine ⟨?_, ?_, ?_⟩
  · intro hex
    refine ⟨rootDir ++ " directory does not exist", ?_⟩
    unfold HashDirectories
    rw [hroot]
    dsimp only
    rw [if_pos hex]
  · intro d hd hex
    unfold HashDirectories
    rw [hroot]
    dsimp only
    by_cases hr : env.dirExists rootDir = false
    · exact ⟨_, by rw [if_pos hr]⟩
    · rw [if_neg hr]
      cases hfind : directories.find? (fun dir => !env.dirExists (rootDir ++ "/" ++ dir)) with
      | some dir => exact ⟨_, rfl⟩
      | none =>
        exfalso
        have := List.find?_eq_none.mp hfind d hd
        simp [hex] at this
  · intro h hok
    unfold HashDirectories at hok
    rw [hroot] at hok
    dsimp only at hok
    split at hok
    · exact absurd hok (by simp)
    · split at hok
      · exact absurd hok (by simp)
      · split at hok
        · exact absurd hok (by simp)
        · split at hok
          · exact absurd hok (by simp)
          · simp only [Except.ok.injEq] at hok
            rw [← hok]
            exact trimNewlines_no_trailing_newline _

/-- Witness for C6 at a concrete environment: the listed directory sub is
missing under the root, so hashing fails. -/
theorem hashDirectories_missing_and_trim_witness :
    ∃ e, HashDirectories
        ⟨Except.ok "w", fun d => d == "r", fun _ _ => Except.ok "L",
          fun _ => Except.ok "abc\n"⟩
        "r" ["sub"] = Except.error e :=
  (hashDirectories_missing_and_trim
      ⟨Except.ok "w", fun d => d == "r", fun _ _ => Except.ok "L",
        fun _ => Except.ok "abc\n"⟩
      "r" ["sub"] "r" rfl).2.1 "sub" (by simp) (by decide)

/-- Claim C1: GetArtifactName formats prefix-hash.tar.gz for a unit present
in the configuration (propagating any HashDirectories error verbatim), and
signals a not-found error for a unit absent from the configuration. -/
theorem getArtifactName_spec (env : HashEnv) (ac : ArtifactsConfig) (nm : String) :
    (∀ u, ac.artifacts.find? (fun s => decide (s.name = nm)) = some u →
      GetArtifactName env nm ac =
        (HashDirectories env ac.rootDirectory u.directories).map
          (fun h => u.artifactPfx ++ "-" ++ h ++ ".tar.gz"))
    ∧ (ac.artifacts.find? (fun s => decide (s.name = nm)) = none →
      GetArtifactName env nm ac =
        .error ("config for " ++ nm ++ " name not found in artifacts.json")) := by
  constructor
  · intro u hu
    unfold GetArtifactName GetArtifactConfig
    rw [hu]
    cases hh : HashDirectories env ac.rootDirectory u.directories
    · simp [Except.map, hh]
    · simp [Except.map, hh]
  · intro hn
    unfold GetArtifactName GetArtifactConfig
    rw [hn]

/-- Witness for C1 at a concrete configuration: the unit svc hashes to
deadbeef, so its artifact name is svc-deadbeef.tar.gz. -/
theorem getArtifactName_spec_witness :
    GetArtifactName
        ⟨Except.ok "w", fun _ => true, fun _ _ => Except.ok "LIST",
          fun _ => Except.ok "deadbeef\n"⟩
        "svc"
        ⟨"app", "root", [⟨"svc", ["src"], "make", "out", "dep", "svc"⟩], []⟩ =
      Except.ok "svc-deadbeef.tar.gz" := by
  have h := (getArtifactName_spec
      ⟨Except.ok "w", fun _ => true, fun _ _ => Except.ok "LIST",
        fun _ => Except.ok "deadbeef\n"⟩
      ⟨"app", "root", [⟨"svc", ["src"], "make", "out", "dep", "svc"⟩], []⟩
      "svc").1 ⟨"svc", ["src"], "make", "out", "dep", "svc"⟩ (by decide)
  rw [h]
  rfl

/-! ## Filesystem model

Paths are lists of components (filepath.Join root name is root ++ [name]).
A filesystem holds regular files (path, mode bits, byte content) and
directories; writes cons a fresh entry, reads take the first match, so the
latest write wins, matching overwrite-in-place. -/

/-- Abstract filesystem state: regular files with mode and content, plus
the set of existing directories. -/
structure FS where
  files : List (List String × Nat × List Nat)
  dirs : List (List String)
deriving DecidableEq, Repr

/-- The empty filesystem. -/
def emptyFS : FS := ⟨[], []⟩

/-- Mode and content of the regular file at a path, if present. -/
def FS.fileAt (fs : FS) (p : List String) : Option (Nat × List Nat) :=
  (fs.files.find? (fun e => decide (e.1 = p))).map (fun e => e.2)

/-- Whether a directory exists at the path. -/
def FS.isDir (fs : FS) (p : List String) : Bool :=
  decide (p ∈ fs.dirs)

/-- All take-prefixes of a path, the directories os.MkdirAll creates. -/
def prefixesOf (p : List String) : List (List String) :=
  (List.range (p.length + 1)).map (fun n => p.take n)

/-- Mirrors os.MkdirAll: the path and all its parents become directories;
file entries are untouched. -/
def FS.mkdirAll (fs : FS) (p : List String) : FS :=
  { fs with dirs := prefixesOf p ++ fs.dirs }

/-- Mirrors os.OpenFile with O_CREATE and O_TRUNC (and os.Create at mode
0666): the content is replaced; the mode argument applies only when the
file did not already exist. -/
def FS.createWith (fs : FS) (p : List String) (m : Nat) (c : List Nat) : FS :=
  match fs.fileAt p with
  | some mc => { fs with files := (p, mc.1, c) :: fs.files }
  | none => { fs with files := (p, m, c) :: fs.files }

/-- Mirrors os.Create: create or truncate with default mode 0666 = 438. -/
def FS.create (fs : FS) (p : List String) (c : List Nat) : FS :=
  fs.createWith p 438 c

/-- Outcome of an os.Stat call; failures other than nonexistence are
possible (permissions, I/O). -/
inductive StatOutcome where
  | found
  | notExist
  | permDenied
  | otherFail
deriving DecidableEq, Repr

/-- Stat over the filesystem model: found when a file or directory exists
at the path. -/
def FS.stat (fs : FS) (p : List String) : StatOutcome :=
  if (fs.fileAt p).isSome || fs.isDir p then .found else .notExist

/-! ## Local repository adapter (slarty/repository.go) -/

/-- Mirrors LocalRepositoryAdapter: the repository root directory. -/
structure LocalRepo where
  root : List String
deriving DecidableEq, Repr

/-- Mirrors the body of LocalRepositoryAdapter.ArtifactExists applied to a
stat outcome: err == nil is returned as the boolean and the error result
is always nil. -/
def artifactExistsOfStat (s : StatOutcome) : Bool × Except String Unit :=
  (match s with | .found => true | _ => false, .ok ())

/-- Mirrors LocalRepositoryAdapter.ArtifactExists: stat root/name. -/
def LocalRepo.ArtifactExists (l : LocalRepo) (fs : FS) (artifactName : String) : Bool :=
  (artifactExistsOfStat (fs.stat (l.root ++ [artifactName]))).1

/-- Mirrors LocalRepositoryAdapter.StoreArtifact: ensure the repository
root exists, open the source blob, create root/name and copy the bytes.
The state is returned alongside the outcome (side effects performed before
a failure persist). -/
def LocalRepo.StoreArtifact (l : LocalRepo) (fs : FS)
    (artifactPath : List String) (artifactName : String) : FS × Except String Unit :=
  match (fs.mkdirAll l.root).fileAt artifactPath with
  | none => (fs.mkdirAll l.root, .error "failed to open artifact file")
  | some mc => ((fs.mkdirAll l.root).create (l.root ++ [artifactName]) mc.2, .ok ())

/-- Mirrors LocalRepositoryAdapter.RetrieveArtifact: stat root/name
(error when absent), ensure the destination parent directories exist, then
copy the blob to the destination path. -/
def LocalRepo.RetrieveArtifact (l : LocalRepo) (fs : FS)
    (artifactName : String) (destinationPath : List String) : FS × Except String Unit :=
  if fs.stat (l.root ++ [artifactName]) = .found then
    match (fs.mkdirAll destinationPath.dropLast).fileAt (l.root ++ [artifactName]) with
    | none => (fs.mkdirAll destinationPath.dropLast, .error "failed to open artifact file")
    | some mc =>
      ((fs.mkdirAll destinationPath.dropLast).create destinationPath mc.2, .ok ())
  else
    (fs, .error "artifact not found in repository")

/-- A sequence of StoreArtifact calls, each acting on the state the
previous one left (failed calls keep their partial effects). -/
def runStores (l : LocalRepo) (fs : FS) (ops : List (List String × String)) : FS :=
  ops.foldl (fun acc op => (l.StoreArtifact acc op.1 op.2).1) fs

/-! ## S3 adapter existence check (slarty/repository.go) -/

/-- Outcome of the S3 HeadObject call. -/
inductive HeadOutcome where
  | success
  | notFound
  | failure (msg : String)
deriving DecidableEq, Repr

/-- Mirrors S3RepositoryAdapter.ArtifactExists: a not-found response is
the boolean false, any other failure is an error. -/
def S3ArtifactExists (head : String → HeadOutcome) (artifactName : String) :
    Except String Bool :=
  match head artifactName with
  | .notFound => .ok false
  | .failure e => .error ("failed to check if artifact exists in S3: " ++ e)
  | .success => .ok true

/-! ### Helper lemmas for the filesystem and local repository -/

theorem fileAt_mkdirAll (fs : FS) (d q : List String) :
    (fs.mkdirAll d).fileAt q = fs.fileAt q := rfl

theorem dirs_createWith (fs : FS) (p : List String) (m : Nat) (c : List Nat) :
    (fs.createWith p m c).dirs = fs.dirs := by
  unfold FS.createWith
  cases fs.fileAt p <;> rfl

theorem isDir_createWith (fs : FS) (p : List String) (m : Nat) (c : List Nat)
    (q : List String) : (fs.createWith p m c).isDir q = fs.isDir q := by
  unfold FS.isDir
  rw [dirs_createWith]

theorem length_le_of_mem_prefixesOf {q d : List String} (h : q ∈ prefixesOf d) :
    q.length ≤ d.length := by
  unfold prefixesOf at h
  simp only [List.mem_map, List.mem_range] at h
  obtain ⟨n, _, rfl⟩ := h
  simp [List.length_take]

theorem self_mem_prefixesOf (d : List String) : d ∈ prefixesOf d := by
  unfold prefixesOf
  refine List.mem_map.mpr ⟨d.length, ?_, by simp⟩
  simp

theorem isDir_mkdirAll_of_longer (fs : FS) (d q : List String)
    (h : d.length < q.length) : (fs.mkdirAll d).isDir q = fs.isDir q := by
  unfold FS.mkdirAll FS.isDir
  simp only [List.mem_append, decide_eq_decide]
  constructor
  · intro hq
    cases hq with
    | inl hq => exact absurd (length_le_of_mem_prefixesOf hq) (by omega)
    | inr hq => exact hq
  · exact Or.inr

theorem isDir_mkdirAll_self (fs : FS) (d : List String) :
    (fs.mkdirAll d).isDir d = true := by
  unfold FS.mkdirAll FS.isDir
  simp only [List.mem_append, decide_eq_true_eq]
  exact Or.inl (self_mem_prefixesOf d)

theorem isDir_mkdirAll_of_mem (fs : FS) (d q : List String)
    (h : q ∈ prefixesOf d) : (fs.mkdirAll d).isDir q = true := by
  unfold FS.mkdirAll FS.isDir
  simp only [List.mem_append, decide_eq_true_eq]
  exact Or.inl h

theorem fileAt_cons_ne (fl : List (List String × Nat × List Nat))
    (ds : List (List String)) (p : List String) (mc : Nat × List Nat)
    (q : List String) (h : q ≠ p) :
    FS.fileAt ⟨(p, mc) :: fl, ds⟩ q = FS.fileAt ⟨fl, ds⟩ q := by
  unfold FS.fileAt
  rw [List.find?_cons_of_neg]
  simp only [decide_eq_true_eq]
  exact fun hh => h hh.symm

theorem fileAt_cons_self (fl : List (List String × Nat × List Nat))
    (ds : List (List String)) (p : List String) (mc : Nat × List Nat) :
    FS.fileAt ⟨(p, mc) :: fl, ds⟩ p = some mc := by
  unfold FS.fileAt
  rw [List.find?_cons_of_pos]
  · rfl
  · simp

theorem fileAt_createWith_ne (fs : FS) (p : List String) (m : Nat) (c : List Nat)
    (q : List String) (h : q ≠ p) :
    (fs.createWith p m c).fileAt q = fs.fileAt q := by
  unfold FS.createWith
  cases hf : fs.fileAt p with
  | none => exact fileAt_cons_ne fs.files fs.dirs p (m, c) q h
  | some mc => exact fileAt_cons_ne fs.files fs.dirs p (mc.1, c) q h

theorem fileAt_createWith_self (fs : FS) (p : List String) (m : Nat) (c : List Nat) :
    ∃ m2, (fs.createWith p m c).fileAt p = some (m2, c) := by
  unfold FS.createWith
  cases hf : fs.fileAt p with
  | none => exact ⟨m, fileAt_cons_self fs.files fs.dirs p (m, c)⟩
  | some mc => exact ⟨mc.1, fileAt_cons_self fs.files fs.dirs p (mc.1, c)⟩

theorem append_singleton_ne {r : List String} {m n : String} (h : m ≠ n) :
    r ++ [m] ≠ r ++ [n] := by
  intro he
  exact h (by simpa using he)

theorem artifactExists_eq (l : LocalRepo) (fs : FS) (n : String) :
    l.ArtifactExists fs n =
      ((fs.fileAt (l.root ++ [n])).isSome || fs.isDir (l.root ++ [n])) := by
  unfold LocalRepo.ArtifactExists artifactExistsOfStat FS.stat
  by_cases h : ((fs.fileAt (l.root ++ [n])).isSome || fs.isDir (l.root ++ [n])) = true
  · rw [if_pos h, h]
  · rw [if_neg h]
    simp only [Bool.not_eq_true] at h
    rw [h]

theorem store_preserves_absent (l : LocalRepo) (fs : FS) (p : List String)
    (m n : String) (hm : m ≠ n) (h : l.ArtifactExists fs n = false) :
    l.ArtifactExists (l.StoreArtifact fs p m).1 n = false := by
  rw [artifactExists_eq] at h ⊢
  simp only [Bool.or_eq_false_iff] at h ⊢
  obtain ⟨hfile, hdir⟩ := h
  have hlen : l.root.length < (l.root ++ [n]).length := by simp
  have hne : l.root ++ [n] ≠ l.root ++ [m] :=
    append_singleton_ne (fun he => hm he.symm)
  cases hf : (fs.mkdirAll l.root).fileAt p with
  | none =>
    simp only [LocalRepo.StoreArtifact, hf]
    refine ⟨?_, ?_⟩
    · rw [fileAt_mkdirAll]; exact hfile
    · rw [isDir_mkdirAll_of_longer _ _ _ hlen]; exact hdir
  | some mc =>
    simp only [LocalRepo.StoreArtifact, hf]
    refine ⟨?_, ?_⟩
    · unfold FS.create
      rw [fileAt_createWith_ne _ _ _ _ _ hne, fileAt_mkdirAll]
      exact hfile
    · unfold FS.create
      rw [isDir_createWith, isDir_mkdirAll_of_longer _ _ _ hlen]
      exact hdir

/-- Claim C2: for the local backend, a name never passed to StoreArtifact
(over any sequence of stores of other names, starting from a repository
not containing it) reports ArtifactExists false, while immediately after
a successful StoreArtifact of that name it reports true; the store creates
the repository root directory and writes the blob under the name. -/
theorem localRepo_store_exists (l : LocalRepo) (fs : FS)
    (ops : List (List String × String)) (n : String)
    (h0 : l.ArtifactExists fs n = false)
    (hops : ∀ op ∈ ops, op.2 ≠ n) :
    l.ArtifactExists (runStores l fs ops) n = false
    ∧ ∀ fs0 p, (l.StoreArtifact fs0 p n).2 = Except.ok () →
        l.ArtifactExists (l.StoreArtifact fs0 p n).1 n = true
        ∧ (l.StoreArtifact fs0 p n).1.isDir l.root = true
        ∧ ∃ m2 c, (l.StoreArtifact fs0 p n).1.fileAt (l.root ++ [n]) = some (m2, c)
          ∧ (fs0.fileAt p).map (fun mc => mc.2) = some c := by
  constructor
  · induction ops generalizing fs with
    | nil => exact h0
    | cons op rest ih =>
      show l.ArtifactExists (runStores l (l.StoreArtifact fs op.1 op.2).1 rest) n = false
      exact ih _
        (store_preserves_absent l fs op.1 op.2 n (hops op (by simp)) h0)
        (fun o ho => hops o (by simp [ho]))
  · intro fs0 p hok
    cases hf : (fs0.mkdirAll l.root).fileAt p with
    | none => simp [LocalRepo.StoreArtifact, hf] at hok
    | some mc =>
      simp only [LocalRepo.StoreArtifact, hf]
      obtain ⟨m2, hm2⟩ :=
        fileAt_createWith_self (fs0.mkdirAll l.root) (l.root ++ [n]) 438 mc.2
      refine ⟨?_, ?_, m2, mc.2, ?_, ?_⟩
      · rw [artifactExists_eq]
        unfold FS.create
        rw [hm2]
        rfl
      · unfold FS.create
        rw [isDir_createWith]
        exact isDir_mkdirAll_self fs0 l.root
      · unfold FS.create
        exact hm2
      · rw [fileAt_mkdirAll] at hf
        rw [hf]
        rfl

/-- Witness for C2: after storing under the name other, the name mine is
still absent; storing a blob under mine makes it exist. -/
theorem localRepo_store_exists_witness :
    LocalRepo.ArtifactExists ⟨["repo"]⟩
        (runStores ⟨["repo"]⟩ emptyFS [(["tmp", "b"], "other")]) "mine" = false
    ∧ LocalRepo.ArtifactExists ⟨["repo"]⟩
        (LocalRepo.StoreArtifact ⟨["repo"]⟩ ⟨[(["t"], 420, [1])], []⟩ ["t"] "mine").1
        "mine" = true := by
  have h := localRepo_store_exists ⟨["repo"]⟩ emptyFS [(["tmp", "b"], "other")] "mine"
      (by decide) (by decide)
  exact ⟨h.1, (h.2 ⟨[(["t"], 420, [1])], []⟩ ["t"] rfl).1⟩

/-- Claim C8: local RetrieveArtifact errors when no entry with the name is
present, and when the entry exists it creates the missing parent
directories of the destination and copies the blob bytes there. -/
theorem localRepo_retrieve_spec (l : LocalRepo) (fs : FS) (n : String)
    (dest : List String) :
    (fs.stat (l.root ++ [n]) ≠ .found →
      l.RetrieveArtifact fs n dest = (fs, .error "artifact not found in repository"))
    ∧ (∀ m c, fs.fileAt (l.root ++ [n]) = some (m, c) →
        (l.RetrieveArtifact fs n dest).2 = .ok ()
        ∧ (∀ q, q ∈ prefixesOf dest.dropLast →
            (l.RetrieveArtifact fs n dest).1.isDir q = true)
        ∧ ∃ m2, (l.RetrieveArtifact fs n dest).1.fileAt dest = some (m2, c)) := by
  constructor
  · intro hmiss
    unfold LocalRepo.RetrieveArtifact
    rw [if_neg hmiss]
  · intro m c hfile
    have hstat : fs.stat (l.root ++ [n]) = .found := by
      unfold FS.stat
      rw [if_pos]
      rw [hfile]
      simp
    have hf1 : (fs.mkdirAll dest.dropLast).fileAt (l.root ++ [n]) = some (m, c) := by
      rw [fileAt_mkdirAll]
      exact hfile
    unfold LocalRepo.RetrieveArtifact
    rw [if_pos hstat, hf1]
    dsimp only
    obtain ⟨m2, hm2⟩ :=
      fileAt_createWith_self (fs.mkdirAll dest.dropLast) dest 438 c
    refine ⟨rfl, ?_, m2, ?_⟩
    · intro q hq
      unfold FS.create
      rw [isDir_createWith]
      exact isDir_mkdirAll_of_mem fs dest.dropLast q hq
    · unfold FS.create
      exact hm2

/-- Witness for C8: retrieving a missing name errors; retrieving a present
blob copies its bytes to the destination path. -/
theorem localRepo_retrieve_spec_witness :
    LocalRepo.RetrieveArtifact ⟨["repo"]⟩ emptyFS "missing" ["d", "out"] =
      (emptyFS, Except.error "artifact not found in repository")
    ∧ ∃ m2, (LocalRepo.RetrieveArtifact ⟨["repo"]⟩
        ⟨[(["repo", "a"], 420, [9, 8])], []⟩ "a" ["d", "out"]).1.fileAt
        ["d", "out"] = some (m2, [9, 8]) := by
  refine ⟨(localRepo_retrieve_spec ⟨["repo"]⟩ emptyFS "missing" ["d", "out"]).1
      (by decide), ?_⟩
  exact ((localRepo_retrieve_spec ⟨["repo"]⟩ ⟨[(["repo", "a"], 420, [9, 8])], []⟩
      "a" ["d", "out"]).2 420 [9, 8] (by decide)).2.2

/-- Claim C10: the local ArtifactExists never signals an error and reports
true exactly when the stat succeeded, classifying permission and I/O stat
failures as nonexistence, while the S3 backend turns a non-not-found
HeadObject failure into an error. -/
theorem artifactExists_total (s : StatOutcome) (head : String → HeadOutcome)
    (n msg : String) :
    ((artifactExistsOfStat s).2 = Except.ok ()
      ∧ ((artifactExistsOfStat s).1 = true ↔ s = .found)
      ∧ (∀ l : LocalRepo, ∀ fs a, l.ArtifactExists fs a =
          (artifactExistsOfStat (fs.stat (l.root ++ [a]))).1))
    ∧ (head n = .failure msg →
        S3ArtifactExists head n =
          .error ("failed to check if artifact exists in S3: " ++ msg)) := by
  refine ⟨⟨rfl, ?_, fun l fs a => rfl⟩, ?_⟩
  · cases s <;> simp [artifactExistsOfStat]
  · intro h
    unfold S3ArtifactExists
    rw [h]

/-- Witness for C10: a permission-denied stat outcome reports plain
nonexistence, and an S3 HeadObject failure reports an error. -/
theorem artifactExists_total_witness :
    (artifactExistsOfStat StatOutcome.permDenied).1 = false
    ∧ S3ArtifactExists (fun _ => HeadOutcome.failure "boom") "n" =
        Except.error "failed to check if artifact exists in S3: boom" := by
  have h := artifactExists_total StatOutcome.permDenied
      (fun _ => HeadOutcome.failure "boom") "n" "boom"
  constructor
  · cases hb : (artifactExistsOfStat StatOutcome.permDenied).1
    · rfl
    · exact absurd (h.1.2.1.mp hb) (by decide)
  · exact h.2 rfl

/-! ## Build orchestrator (cmd/doBuilds.go, runDoBuilds)

The command is modelled as two passes over the selected artifact list, as
in the source: the first computes artifact names and the build-needed map
(aborting on a GetArtifactName error, as log.Fatalln does), the second
runs builds.  The observable actions of the second pass are recorded as a
trace of events keyed by unit name; the environment fixes the outcome of
the build command, temp-file creation, archiving and storing. -/

/-- Environment for the build orchestrator. -/
structure BuildEnv where
  hash : HashEnv
  cfg : ArtifactsConfig
  repoExists : String → Bool
  cmdOk : String → Bool
  tempOk : String → Bool
  zipOk : String → Bool
  storeOk : String → Bool

/-- An observable action of the build loop, keyed by unit name: running
the build command, invoking zipDirectory, invoking StoreArtifact, and
StoreArtifact returning without error (the successfulBuilds++ path). -/
inductive BuildEvent where
  | buildCmd (unit : String)
  | pack (unit : String)
  | store (unit : String)
  | stored (unit : String)
deriving DecidableEq, Repr

/-- Pointwise update of a map modelled as a function (Go map write). -/
def upd {α : Type} (f : String → α) (k : String) (v : α) : String → α :=
  fun x => if x = k then v else f x

/-- The first loop of runDoBuilds: compute each artifact name (fatal on
error) and record buildNeeded = force or not exists. -/
def buildPhase1 (env : BuildEnv) (force : Bool) :
    List ArtifactConfig → (String → String) → (String → Bool) →
    Except String ((String → String) × (String → Bool))
  | [], names, needed => .ok (names, needed)
  | a :: rest, names, needed =>
    match GetArtifactName env.hash a.name env.cfg with
    | .error e => .error e
    | .ok an =>
      buildPhase1 env force rest (upd names a.name an)
        (upd needed a.name (force || !env.repoExists an))

/-- The body of the second loop of runDoBuilds for one unit: skip when no
build is needed; otherwise run the build command, and on success create
the temp file, archive the output directory, and store the artifact under
artifactNames[unit] (a failed store is printed and the unit abandoned,
like every other failure: continue); only a nil-error store reaches the
successfulBuilds++ path recorded as the stored event. -/
def buildPhase2Unit (env : BuildEnv) (names : String → String)
    (needed : String → Bool) (a : ArtifactConfig) : List BuildEvent :=
  if needed a.name = false then []
  else
    BuildEvent.buildCmd a.name ::
      (if env.cmdOk a.command = false then []
       else if env.tempOk a.name = false then []
       else
         BuildEvent.pack a.name ::
           (if env.zipOk a.outputDirectory = false then []
            else
              BuildEvent.store a.name ::
                (if env.storeOk (names a.name) = false then []
                 else [BuildEvent.stored a.name])))

/-- Mirrors runDoBuilds: the check loop, then the sequential build loop.
Returns the trace of second-loop actions, or the fatal first-loop error. -/
def runDoBuilds (env : BuildEnv) (force : Bool) (artifacts : List ArtifactConfig) :
    Except String (List BuildEvent) :=
  if artifacts.isEmpty then .ok []
  else
    match buildPhase1 env force artifacts (fun _ => "") (fun _ => false) with
    | .error e => .error e
    | .ok nb => .ok (artifacts.flatMap (buildPhase2Unit env nb.1 nb.2))

/-! ### Helper lemmas for the build orchestrator -/

/-- The unit name an event is keyed by. -/
def BuildEvent.unitName : BuildEvent → String
  | .buildCmd u => u
  | .pack u => u
  | .store u => u
  | .stored u => u

theorem buildPhase2Unit_units (env : BuildEnv) (names : String → String)
    (needed : String → Bool) (a : ArtifactConfig) (e : BuildEvent)
    (he : e ∈ buildPhase2Unit env names needed a) :
    e.unitName = a.name := by
  unfold buildPhase2Unit at he
  split at he
  · simp at he
  · simp only [List.mem_cons] at he
    rcases he with h | h
    · rw [h]; rfl
    · split at h
      · simp at h
      · split at h
        · simp at h
        · simp only [List.mem_cons] at h
          rcases h with h | h
          · rw [h]; rfl
          · split at h
            · simp at h
            · simp only [List.mem_cons] at h
              rcases h with h | h
              · rw [h]; rfl
              · split at h
                · simp at h
                · simp only [List.mem_singleton] at h
                  rw [h]; rfl

theorem buildPhase1_preserve (env : BuildEnv) (force : Bool)
    (l : List ArtifactConfig) (names : String → String) (needed : String → Bool)
    (N : String → String) (B : String → Bool) (k : String)
    (h : buildPhase1 env force l names needed = .ok (N, B))
    (hk : k ∉ l.map ArtifactConfig.name) :
    N k = names k ∧ B k = needed k := by
  induction l generalizing names needed with
  | nil =>
    simp only [buildPhase1, Except.ok.injEq, Prod.mk.injEq] at h
    rw [← h.1, ← h.2]
    exact ⟨rfl, rfl⟩
  | cons a rest ih =>
    simp only [List.map_cons, List.mem_cons, not_or] at hk
    obtain ⟨hka, hkrest⟩ := hk
    unfold buildPhase1 at h
    cases hg : GetArtifactName env.hash a.name env.cfg with
    | error e => rw [hg] at h; exact absurd h (by simp)
    | ok an =>
      rw [hg] at h
      have hres := ih _ _ h (by simpa using hkrest)
      rw [hres.1, hres.2]
      unfold upd
      rw [if_neg hka, if_neg hka]
      exact ⟨rfl, rfl⟩

theorem buildPhase1_lookup (env : BuildEnv) (force : Bool)
    (l : List ArtifactConfig) (names : String → String) (needed : String → Bool)
    (N : String → String) (B : String → Bool) (a : ArtifactConfig) (an : String)
    (hnd : (l.map ArtifactConfig.name).Nodup)
    (h : buildPhase1 env force l names needed = .ok (N, B))
    (ha : a ∈ l) (han : GetArtifactName env.hash a.name env.cfg = .ok an) :
    N a.name = an ∧ B a.name = (force || !env.repoExists an) := by
  induction l generalizing names needed with
  | nil => simp at ha
  | cons b rest ih =>
    simp only [List.map_cons, List.nodup_cons] at hnd
    unfold buildPhase1 at h
    cases hg : GetArtifactName env.hash b.name env.cfg with
    | error e => rw [hg] at h; exact absurd h (by simp)
    | ok bn =>
      rw [hg] at h
      rw [List.mem_cons] at ha
      cases ha with
      | inl hab =>
        subst hab
        rw [han] at hg
        injection hg with hg
        subst hg
        have hpres := buildPhase1_preserve env force rest _ _ N B a.name h hnd.1
        rw [hpres.1, hpres.2]
        unfold upd
        rw [if_pos rfl, if_pos rfl]
        exact ⟨rfl, rfl⟩
      | inr harest => exact ih _ _ hnd.2 h harest

theorem mem_trace_unit (env : BuildEnv) (names : String → String)
    (B : String → Bool) (artifacts : List ArtifactConfig)
    (hnd : (artifacts.map ArtifactConfig.name).Nodup)
    (a : ArtifactConfig) (ha : a ∈ artifacts) (e : BuildEvent)
    (he : e.unitName = a.name) :
    e ∈ artifacts.flatMap (buildPhase2Unit env names B)
      ↔ e ∈ buildPhase2Unit env names B a := by
  constructor
  · intro h
    obtain ⟨b, hb, hbe⟩ := List.mem_flatMap.mp h
    have hu := buildPhase2Unit_units env names B b e hbe
    have hab : a = b := List.inj_on_of_nodup_map hnd ha hb (by rw [← he, hu])
    rw [hab]
    exact hbe
  · intro h
    exact List.mem_flatMap.mpr ⟨a, ha, h⟩

theorem buildPhase1_total (env : BuildEnv) (force : Bool)
    (l : List ArtifactConfig) (names : String → String) (needed : String → Bool)
    (hok : ∀ c ∈ l, ∃ cn, GetArtifactName env.hash c.name env.cfg = .ok cn) :
    ∃ nb, buildPhase1 env force l names needed = .ok nb := by
  induction l generalizing names needed with
  | nil => exact ⟨_, rfl⟩
  | cons a rest ih =>
    obtain ⟨an, han⟩ := hok a (by simp)
    unfold buildPhase1
    rw [han]
    exact ih _ _ (fun c hc => hok c (List.mem_cons_of_mem _ hc))

theorem store_not_mem_phase2 (env : BuildEnv) (names : String → String)
    (needed : String → Bool) (a : ArtifactConfig)
    (hfail : env.cmdOk a.command = false ∨ env.tempOk a.name = false
      ∨ env.zipOk a.outputDirectory = false) (u : String) :
    BuildEvent.store u ∉ buildPhase2Unit env names needed a := by
  intro h
  unfold buildPhase2Unit at h
  split at h
  · simp at h
  · simp only [List.mem_cons] at h
    rcases h with h | h
    · exact absurd h (by simp)
    · by_cases hc : env.cmdOk a.command = false
      · rw [if_pos hc] at h; simp at h
      · rw [if_neg hc] at h
        by_cases ht : env.tempOk a.name = false
        · rw [if_pos ht] at h; simp at h
        · rw [if_neg ht] at h
          simp only [List.mem_cons] at h
          rcases h with h | h
          · exact absurd h (by simp)
          · have hz : env.zipOk a.outputDirectory = false := by
              rcases hfail with hf | hf | hf
              · exact absurd hf hc
              · exact absurd hf ht
              · exact hf
            rw [if_pos hz] at h
            simp at h

theorem stored_not_mem_phase2 (env : BuildEnv) (names : String → String)
    (needed : String → Bool) (a : ArtifactConfig)
    (hfail : env.cmdOk a.command = false ∨ env.tempOk a.name = false
      ∨ env.zipOk a.outputDirectory = false
      ∨ env.storeOk (names a.name) = false) (u : String) :
    BuildEvent.stored u ∉ buildPhase2Unit env names needed a := by
  intro h
  unfold buildPhase2Unit at h
  split at h
  · simp at h
  · simp only [List.mem_cons] at h
    rcases h with h | h
    · exact absurd h (by simp)
    · by_cases hc : env.cmdOk a.command = false
      · rw [if_pos hc] at h; simp at h
      · rw [if_neg hc] at h
        by_cases ht : env.tempOk a.name = false
        · rw [if_pos ht] at h; simp at h
        · rw [if_neg ht] at h
          simp only [List.mem_cons] at h
          rcases h with h | h
          · exact absurd h (by simp)
          · by_cases hz : env.zipOk a.outputDirectory = false
            · rw [if_pos hz] at h; simp at h
            · rw [if_neg hz] at h
              simp only [List.mem_cons] at h
              rcases h with h | h
              · exact absurd h (by simp)
              · have hs : env.storeOk (names a.name) = false := by
                  rcases hfail with hf | hf | hf | hf
                  · exact absurd hf hc
                  · exact absurd hf ht
                  · exact absurd hf hz
                  · exact hf
                rw [if_pos hs] at h
                simp at h

/-- Claim C3: in the build loop a unit is built iff force is set or its
computed artifact is absent; with the artifact present and no force,
neither its build command nor any pack or store action runs for it, and
with force set the build command runs even though the artifact exists. -/
theorem doBuilds_build_iff (env : BuildEnv) (force : Bool)
    (artifacts : List ArtifactConfig) (trace : List BuildEvent)
    (a : ArtifactConfig) (an : String)
    (hnd : (artifacts.map ArtifactConfig.name).Nodup)
    (hrun : runDoBuilds env force artifacts = .ok trace)
    (ha : a ∈ artifacts)
    (han : GetArtifactName env.hash a.name env.cfg = .ok an) :
    (BuildEvent.buildCmd a.name ∈ trace
      ↔ (force = true ∨ env.repoExists an = false))
    ∧ (env.repoExists an = true → force = false →
        BuildEvent.buildCmd a.name ∉ trace ∧ BuildEvent.pack a.name ∉ trace
        ∧ BuildEvent.store a.name ∉ trace) := by
  have hne : ¬(artifacts.isEmpty = true) := by
    cases artifacts
    · simp at ha
    · simp
  unfold runDoBuilds at hrun
  rw [if_neg hne] at hrun
  cases hp : buildPhase1 env force artifacts (fun _ => "") (fun _ => false) with
  | error e => rw [hp] at hrun; exact absurd hrun (by simp)
  | ok nb =>
    rw [hp] at hrun
    simp only [Except.ok.injEq] at hrun
    subst hrun
    obtain ⟨hN, hB⟩ := buildPhase1_lookup env force artifacts _ _ nb.1 nb.2 a an hnd
      (by rw [hp]) ha han
    have hbool : (force || !env.repoExists an) = true
        ↔ (force = true ∨ env.repoExists an = false) := by
      cases force <;> cases hx : env.repoExists an <;> simp [hx]
    constructor
    · rw [mem_trace_unit env nb.1 nb.2 artifacts hnd a ha (BuildEvent.buildCmd a.name) rfl]
      constructor
      · intro hmem
        rw [← hbool, ← hB]
        by_cases hneed : nb.2 a.name = false
        · unfold buildPhase2Unit at hmem
          rw [if_pos hneed] at hmem
          simp at hmem
        · simpa using hneed
      · intro hrhs
        have hneed : nb.2 a.name = true := by
          rw [hB]
          exact hbool.mpr hrhs
        unfold buildPhase2Unit
        rw [if_neg (by rw [hneed]; simp)]
        exact List.mem_cons_self _ _
    · intro hex hforce
      have hneed : nb.2 a.name = false := by
        rw [hB, hforce, hex]
        rfl
      have hempty : buildPhase2Unit env nb.1 nb.2 a = [] := by
        unfold buildPhase2Unit
        rw [if_pos hneed]
      refine ⟨?_, ?_, ?_⟩
      · intro hmem
        rw [mem_trace_unit env nb.1 nb.2 artifacts hnd a ha
          (BuildEvent.buildCmd a.name) rfl, hempty] at hmem
        simp at hmem
      · intro hmem
        rw [mem_trace_unit env nb.1 nb.2 artifacts hnd a ha
          (BuildEvent.pack a.name) rfl, hempty] at hmem
        simp at hmem
      · intro hmem
        rw [mem_trace_unit env nb.1 nb.2 artifacts hnd a ha
          (BuildEvent.store a.name) rfl, hempty] at hmem
        simp at hmem

/-- Witness for C3: with the artifact already in the repository and force
set, the build command still runs for the unit. -/
theorem doBuilds_build_iff_witness :
    BuildEvent.buildCmd "svc" ∈
      [BuildEvent.buildCmd "svc", BuildEvent.pack "svc", BuildEvent.store "svc",
        BuildEvent.stored "svc"] := by
  have h := doBuilds_build_iff
      ⟨⟨Except.ok "w", fun _ => true, fun _ _ => Except.ok "L",
          fun _ => Except.ok "deadbeef\n"⟩,
        ⟨"app", "root", [⟨"svc", ["src"], "make", "out", "dep", "svc"⟩], []⟩,
        fun _ => true, fun _ => true, fun _ => true, fun _ => true, fun _ => true⟩
      true [⟨"svc", ["src"], "make", "out", "dep", "svc"⟩]
      [BuildEvent.buildCmd "svc", BuildEvent.pack "svc", BuildEvent.store "svc",
        BuildEvent.stored "svc"]
      ⟨"svc", ["src"], "make", "out", "dep", "svc"⟩ "svc-deadbeef.tar.gz"
      (by simp) rfl (by simp) rfl
  exact h.1.mpr (Or.inl rfl)

/-- Claim C7: a failing build command — or a temp-file, archive, or store
failure — on one unit does not abort the batch: the run still completes
normally, the failed unit never reaches the successful-store path (and
for a failure before the store step no store is even attempted), and a
later unit needing a build still has its build command executed. -/
theorem doBuilds_failure_continues (env : BuildEnv) (force : Bool)
    (artifacts : List ArtifactConfig) (a b : ArtifactConfig) (an bn : String)
    (hnd : (artifacts.map ArtifactConfig.name).Nodup)
    (hok : ∀ c ∈ artifacts, ∃ cn, GetArtifactName env.hash c.name env.cfg = .ok cn)
    (ha : a ∈ artifacts)
    (han : GetArtifactName env.hash a.name env.cfg = .ok an)
    (hfail : env.cmdOk a.command = false ∨ env.tempOk a.name = false
      ∨ env.zipOk a.outputDirectory = false ∨ env.storeOk an = false)
    (hb : b ∈ artifacts)
    (hbn : GetArtifactName env.hash b.name env.cfg = .ok bn)
    (hneed : force = true ∨ env.repoExists bn = false) :
    ∃ trace, runDoBuilds env force artifacts = .ok trace
      ∧ BuildEvent.stored a.name ∉ trace
      ∧ ((env.cmdOk a.command = false ∨ env.tempOk a.name = false
          ∨ env.zipOk a.outputDirectory = false) →
        BuildEvent.store a.name ∉ trace)
      ∧ BuildEvent.buildCmd b.name ∈ trace := by
  have hne : ¬(artifacts.isEmpty = true) := by
    cases artifacts
    · simp at ha
    · simp
  obtain ⟨nb, hp⟩ := buildPhase1_total env force artifacts _ _ hok
  have hNa := (buildPhase1_lookup env force artifacts _ _ nb.1 nb.2 a an hnd
    (by rw [hp]) ha han).1
  refine ⟨artifacts.flatMap (buildPhase2Unit env nb.1 nb.2), ?_, ?_, ?_, ?_⟩
  · unfold runDoBuilds
    rw [if_neg hne, hp]
  · intro hmem
    rw [mem_trace_unit env nb.1 nb.2 artifacts hnd a ha
      (BuildEvent.stored a.name) rfl] at hmem
    have hfail2 : env.cmdOk a.command = false ∨ env.tempOk a.name = false
        ∨ env.zipOk a.outputDirectory = false
        ∨ env.storeOk (nb.1 a.name) = false := by
      rcases hfail with h | h | h | h
      · exact Or.inl h
      · exact Or.inr (Or.inl h)
      · exact Or.inr (Or.inr (Or.inl h))
      · exact Or.inr (Or.inr (Or.inr (by rw [hNa]; exact h)))
    exact stored_not_mem_phase2 env nb.1 nb.2 a hfail2 a.name hmem
  · intro hf3 hmem
    rw [mem_trace_unit env nb.1 nb.2 artifacts hnd a ha
      (BuildEvent.store a.name) rfl] at hmem
    exact store_not_mem_phase2 env nb.1 nb.2 a hf3 a.name hmem
  · have hBb := (buildPhase1_lookup env force artifacts _ _ nb.1 nb.2 b bn hnd
      (by rw [hp]) hb hbn).2
    have hneedb : nb.2 b.name = true := by
      rw [hBb]
      rcases hneed with h | h
      · rw [h]; rfl
      · rw [h]; cases force <;> rfl
    refine List.mem_flatMap.mpr ⟨b, hb, ?_⟩
    unfold buildPhase2Unit
    rw [if_neg (by rw [hneedb]; simp)]
    exact List.mem_cons_self _ _

/-- Witness for C7: unit u1 builds and packs but its StoreArtifact fails;
the batch still completes, u1 never reaches the successful-store path,
and u2 is still built. -/
theorem doBuilds_failure_continues_witness :
    ∃ trace, runDoBuilds
        ⟨⟨Except.ok "w", fun _ => true, fun _ _ => Except.ok "L",
            fun _ => Except.ok "deadbeef\n"⟩,
          ⟨"app", "root",
            [⟨"u1", ["s"], "c1", "o1", "d", "p1"⟩,
              ⟨"u2", ["s"], "c2", "o2", "d", "p2"⟩], []⟩,
          fun _ => false, fun _ => true, fun _ => true, fun _ => true,
          fun an => !(an == "p1-deadbeef.tar.gz")⟩
        false
        [⟨"u1", ["s"], "c1", "o1", "d", "p1"⟩,
          ⟨"u2", ["s"], "c2", "o2", "d", "p2"⟩] = .ok trace
      ∧ BuildEvent.stored "u1" ∉ trace
      ∧ BuildEvent.buildCmd "u2" ∈ trace := by
  have h := doBuilds_failure_continues
      ⟨⟨Except.ok "w", fun _ => true, fun _ _ => Except.ok "L",
          fun _ => Except.ok "deadbeef\n"⟩,
        ⟨"app", "root",
          [⟨"u1", ["s"], "c1", "o1", "d", "p1"⟩,
            ⟨"u2", ["s"], "c2", "o2", "d", "p2"⟩], []⟩,
        fun _ => false, fun _ => true, fun _ => true, fun _ => true,
        fun an => !(an == "p1-deadbeef.tar.gz")⟩
      false
      [⟨"u1", ["s"], "c1", "o1", "d", "p1"⟩,
        ⟨"u2", ["s"], "c2", "o2", "d", "p2"⟩]
      ⟨"u1", ["s"], "c1", "o1", "d", "p1"⟩
      ⟨"u2", ["s"], "c2", "o2", "d", "p2"⟩
      "p1-deadbeef.tar.gz" "p2-deadbeef.tar.gz"
      (by simp) ?_ (by simp) rfl (Or.inr (Or.inr (Or.inr rfl))) (by simp) rfl
      (Or.inr rfl)
  · obtain ⟨trace, h1, h2, h3, h4⟩ := h
    exact ⟨trace, h1, h2, h4⟩
  · intro c hc
    simp only [List.mem_cons, List.not_mem_nil, or_false] at hc
    rcases hc with h | h <;> subst h
    · exact ⟨_, rfl⟩
    · exact ⟨_, rfl⟩

/-! ## Deploy orchestrator (cmd/doDeploys.go, runDoDeploys)

Two passes, as in the source: the first computes every artifact name and
checks its existence in the repository before anything else, any failure
being fatal (log.Fatal); the second retrieves, creates the deploy
directory, and unpacks, any failure aborting the whole invocation.  The
trace records retrieval and unpack calls keyed by unit name. -/

/-- Environment for the deploy orchestrator.  The existence check is the
two-valued ArtifactExists used by this command. -/
structure DeployEnv where
  hash : HashEnv
  cfg : ArtifactsConfig
  existsR : String → Except String Bool
  tempOk : String → Bool
  retrieveOk : String → Bool
  mkdirOk : String → Bool
  unzipOk : String → Bool

/-- An observable action of the deploy loop, keyed by unit name. -/
inductive DeployEvent where
  | retrieve (unit : String)
  | unpack (unit : String)
deriving DecidableEq, Repr

/-- The unit name a deploy event is keyed by. -/
def DeployEvent.unitName : DeployEvent → String
  | .retrieve u => u
  | .unpack u => u

/-- The first loop of runDoDeploys: compute each artifact name and check
its existence; a hash error, a check error, or a missing artifact is
fatal for the whole invocation. -/
def deployPhase1 (env : DeployEnv) :
    List ArtifactConfig → (String → String) → Except String (String → String)
  | [], names => .ok names
  | a :: rest, names =>
    match GetArtifactName env.hash a.name env.cfg with
    | .error e => .error e
    | .ok an =>
      match env.existsR an with
      | .error e => .error ("Failed to check if artifact exists in repository: " ++ e)
      | .ok false =>
        .error ("Artifact " ++ an ++ " for " ++ a.name ++ " not found in repository")
      | .ok true => deployPhase1 env rest (upd names a.name an)

/-- The second loop of runDoDeploys: per unit, create the temp file,
retrieve the artifact, create the deploy directory, unpack; each failure
is fatal (log.Fatalf), so the rest of the list is not processed. -/
def deployPhase2 (env : DeployEnv) (names : String → String) :
    List ArtifactConfig → List DeployEvent × Except String Unit
  | [] => ([], .ok ())
  | a :: rest =>
    if env.tempOk a.name = false then
      ([], .error "Failed to create temporary file")
    else if env.retrieveOk (names a.name) = false then
      ([DeployEvent.retrieve a.name], .error "Failed to retrieve artifact from repository")
    else if env.mkdirOk a.deployLocation = false then
      ([DeployEvent.retrieve a.name], .error "Failed to create deploy directory")
    else if env.unzipOk a.name = false then
      ([DeployEvent.retrieve a.name, DeployEvent.unpack a.name],
        .error "Failed to extract artifact")
    else
      (DeployEvent.retrieve a.name :: DeployEvent.unpack a.name ::
          (deployPhase2 env names rest).1,
        (deployPhase2 env names rest).2)

/-- Mirrors runDoDeploys: the check-everything loop, then the deploy loop. -/
def runDoDeploys (env : DeployEnv) (artifacts : List ArtifactConfig) :
    List DeployEvent × Except String Unit :=
  if artifacts.isEmpty then ([], .ok ())
  else
    match deployPhase1 env artifacts (fun _ => "") with
    | .error e => ([], .error e)
    | .ok names => deployPhase2 env names artifacts

/-! ### Helper lemmas for the deploy orchestrator -/

theorem deployPhase1_ok_forall (env : DeployEnv) (l : List ArtifactConfig)
    (names N : String → String)
    (h : deployPhase1 env l names = .ok N) :
    ∀ c ∈ l, ∀ cn, GetArtifactName env.hash c.name env.cfg = .ok cn →
      env.existsR cn = .ok true := by
  induction l generalizing names with
  | nil => intro c hc; simp at hc
  | cons a rest ih =>
    intro c hc cn hcn
    unfold deployPhase1 at h
    cases hg : GetArtifactName env.hash a.name env.cfg with
    | error e => rw [hg] at h; exact absurd h (by simp)
    | ok an =>
      rw [hg] at h
      dsimp only at h
      cases hx : env.existsR an with
      | error e => rw [hx] at h; exact absurd h (by simp)
      | ok b =>
        rw [hx] at h
        cases b with
        | false => exact absurd h (by simp)
        | true =>
          rw [List.mem_cons] at hc
          cases hc with
          | inl hca =>
            subst hca
            rw [hcn] at hg
            injection hg with hg
            subst hg
            exact hx
          | inr hcr => exact ih _ h c hcr cn hcn

theorem deployPhase1_preserve (env : DeployEnv) (l : List ArtifactConfig)
    (names N : String → String) (k : String)
    (h : deployPhase1 env l names = .ok N)
    (hk : k ∉ l.map ArtifactConfig.name) :
    N k = names k := by
  induction l generalizing names with
  | nil =>
    simp only [deployPhase1, Except.ok.injEq] at h
    rw [← h]
  | cons a rest ih =>
    simp only [List.map_cons, List.mem_cons, not_or] at hk
    unfold deployPhase1 at h
    cases hg : GetArtifactName env.hash a.name env.cfg with
    | error e => rw [hg] at h; exact absurd h (by simp)
    | ok an =>
      rw [hg] at h
      dsimp only at h
      cases hx : env.existsR an with
      | error e => rw [hx] at h; exact absurd h (by simp)
      | ok b =>
        rw [hx] at h
        cases b with
        | false => exact absurd h (by simp)
        | true =>
          have hres := ih _ h (by simpa using hk.2)
          rw [hres]
          unfold upd
          rw [if_neg hk.1]

theorem deployPhase1_lookup (env : DeployEnv) (l : List ArtifactConfig)
    (names N : String → String) (a : ArtifactConfig) (an : String)
    (hnd : (l.map ArtifactConfig.name).Nodup)
    (h : deployPhase1 env l names = .ok N)
    (ha : a ∈ l) (han : GetArtifactName env.hash a.name env.cfg = .ok an) :
    N a.name = an := by
  induction l generalizing names with
  | nil => simp at ha
  | cons b rest ih =>
    simp only [List.map_cons, List.nodup_cons] at hnd
    unfold deployPhase1 at h
    cases hg : GetArtifactName env.hash b.name env.cfg with
    | error e => rw [hg] at h; exact absurd h (by simp)
    | ok bn =>
      rw [hg] at h
      dsimp only at h
      cases hx : env.existsR bn with
      | error e => rw [hx] at h; exact absurd h (by simp)
      | ok bv =>
        rw [hx] at h
        cases bv with
        | false => exact absurd h (by simp)
        | true =>
          rw [List.mem_cons] at ha
          cases ha with
          | inl hab =>
            subst hab
            rw [han] at hg
            injection hg with hg
            subst hg
            rw [deployPhase1_preserve env rest _ N a.name h hnd.1]
            unfold upd
            rw [if_pos rfl]
          | inr harest => exact ih _ hnd.2 h harest

theorem deployPhase1_ok_gan (env : DeployEnv) (l : List ArtifactConfig)
    (names N : String → String) (h : deployPhase1 env l names = .ok N) :
    ∀ c ∈ l, ∃ cn, GetArtifactName env.hash c.name env.cfg = .ok cn := by
  induction l generalizing names with
  | nil => intro c hc; simp at hc
  | cons a rest ih =>
    intro c hc
    unfold deployPhase1 at h
    cases hg : GetArtifactName env.hash a.name env.cfg with
    | error e => rw [hg] at h; exact absurd h (by simp)
    | ok an =>
      rw [hg] at h
      dsimp only at h
      cases hx : env.existsR an with
      | error e => rw [hx] at h; exact absurd h (by simp)
      | ok b =>
        rw [hx] at h
        cases b with
        | false => exact absurd h (by simp)
        | true =>
          rw [List.mem_cons] at hc
          rcases hc with hca | hcr
          · subst hca; exact ⟨an, hg⟩
          · exact ih _ h c hcr

theorem deployPhase2_cons (env : DeployEnv) (names : String → String)
    (a : ArtifactConfig) (rest : List ArtifactConfig) :
    deployPhase2 env names (a :: rest) =
      if env.tempOk a.name = false then ([], .error "Failed to create temporary file")
      else if env.retrieveOk (names a.name) = false then
        ([DeployEvent.retrieve a.name],
          .error "Failed to retrieve artifact from repository")
      else if env.mkdirOk a.deployLocation = false then
        ([DeployEvent.retrieve a.name], .error "Failed to create deploy directory")
      else if env.unzipOk a.name = false then
        ([DeployEvent.retrieve a.name, DeployEvent.unpack a.name],
          .error "Failed to extract artifact")
      else
        (DeployEvent.retrieve a.name :: DeployEvent.unpack a.name ::
            (deployPhase2 env names rest).1,
          (deployPhase2 env names rest).2) := rfl

theorem deployPhase2_head_fail (env : DeployEnv) (names : String → String)
    (a : ArtifactConfig) (post : List ArtifactConfig)
    (hfaila : env.tempOk a.name = false ∨ env.retrieveOk (names a.name) = false
      ∨ env.mkdirOk a.deployLocation = false ∨ env.unzipOk a.name = false) :
    (∃ e, (deployPhase2 env names (a :: post)).2 = .error e)
    ∧ ∀ ev ∈ (deployPhase2 env names (a :: post)).1, ev.unitName = a.name := by
  unfold deployPhase2
  by_cases h1 : env.tempOk a.name = false
  · rw [if_pos h1]
    exact ⟨⟨_, rfl⟩, fun ev hev => by simp at hev⟩
  · rw [if_neg h1]
    by_cases h2 : env.retrieveOk (names a.name) = false
    · rw [if_pos h2]
      refine ⟨⟨_, rfl⟩, ?_⟩
      intro ev hev
      simp only [List.mem_singleton] at hev
      rw [hev]; rfl
    · rw [if_neg h2]
      by_cases h3 : env.mkdirOk a.deployLocation = false
      · rw [if_pos h3]
        refine ⟨⟨_, rfl⟩, ?_⟩
        intro ev hev
        simp only [List.mem_singleton] at hev
        rw [hev]; rfl
      · rw [if_neg h3]
        have h4 : env.unzipOk a.name = false := by
          rcases hfaila with h | h | h | h
          · exact absurd h h1
          · exact absurd h h2
          · exact absurd h h3
          · exact h
        rw [if_pos h4]
        refine ⟨⟨_, rfl⟩, ?_⟩
        intro ev hev
        simp only [List.mem_cons, List.mem_singleton, List.not_mem_nil, or_false] at hev
        rcases hev with h | h <;> · rw [h]; rfl

theorem deployPhase2_abort (env : DeployEnv) (names : String → String)
    (pre post : List ArtifactConfig) (a : ArtifactConfig)
    (hpre : ∀ c ∈ pre, env.tempOk c.name = true
      ∧ env.mkdirOk c.deployLocation = true ∧ env.unzipOk c.name = true
      ∧ env.retrieveOk (names c.name) = true)
    (hfaila : env.tempOk a.name = false ∨ env.retrieveOk (names a.name) = false
      ∨ env.mkdirOk a.deployLocation = false ∨ env.unzipOk a.name = false) :
    (∃ e, (deployPhase2 env names (pre ++ a :: post)).2 = .error e)
    ∧ ∀ ev ∈ (deployPhase2 env names (pre ++ a :: post)).1,
        ev.unitName ∈ pre.map ArtifactConfig.name ∨ ev.unitName = a.name := by
  induction pre with
  | nil =>
    obtain ⟨he, hev⟩ := deployPhase2_head_fail env names a post hfaila
    exact ⟨he, fun ev h => Or.inr (hev ev h)⟩
  | cons c rest ih =>
    obtain ⟨hct, hcm, hcu, hcr⟩ := hpre c (by simp)
    have ihr := ih (fun d hd => hpre d (List.mem_cons_of_mem _ hd))
    have heq : deployPhase2 env names ((c :: rest) ++ a :: post) =
        (DeployEvent.retrieve c.name :: DeployEvent.unpack c.name ::
            (deployPhase2 env names (rest ++ a :: post)).1,
          (deployPhase2 env names (rest ++ a :: post)).2) := by
      rw [List.cons_append, deployPhase2_cons]
      rw [if_neg (by rw [hct]; simp), if_neg (by rw [hcr]; simp),
        if_neg (by rw [hcm]; simp), if_neg (by rw [hcu]; simp)]
    rw [heq]
    refine ⟨ihr.1, ?_⟩
    intro ev hev
    rcases List.mem_cons.mp hev with h | hev2
    · rw [h]
      exact Or.inl (by simp [DeployEvent.unitName])
    · rcases List.mem_cons.mp hev2 with h | hev3
      · rw [h]
        exact Or.inl (by simp [DeployEvent.unitName])
      · rcases ihr.2 ev hev3 with hh | hh
        · exact Or.inl (List.mem_cons_of_mem _ hh)
        · exact Or.inr hh

/-- Claim C9: runDoDeploys checks the repository existence of every
selected unit's artifact before retrieving or unpacking anything, so one
missing artifact terminates the invocation with an empty action trace:
no RetrieveArtifact call and no unpack happen for any unit. -/
theorem deploy_missing_no_actions (env : DeployEnv) (artifacts : List ArtifactConfig)
    (a : ArtifactConfig) (an : String)
    (ha : a ∈ artifacts)
    (han : GetArtifactName env.hash a.name env.cfg = .ok an)
    (hmiss : env.existsR an = .ok false) :
    (runDoDeploys env artifacts).1 = []
    ∧ ∃ e, (runDoDeploys env artifacts).2 = .error e := by
  have hne : ¬(artifacts.isEmpty = true) := by
    cases artifacts
    · simp at ha
    · simp
  unfold runDoDeploys
  rw [if_neg hne]
  cases hp : deployPhase1 env artifacts (fun _ => "") with
  | error e =>
    exact ⟨rfl, e, rfl⟩
  | ok names =>
    exfalso
    have h2 := deployPhase1_ok_forall env artifacts _ names hp a ha an han
    rw [hmiss] at h2
    exact absurd h2 (by simp)

/-- Witness for C9: the single unit's artifact is reported missing, so the
deploy run performs no action and fails. -/
theorem deploy_missing_no_actions_witness :
    (runDoDeploys
        ⟨⟨Except.ok "w", fun _ => true, fun _ _ => Except.ok "L",
            fun _ => Except.ok "deadbeef\n"⟩,
          ⟨"app", "root", [⟨"svc", ["src"], "make", "out", "dep", "svc"⟩], []⟩,
          fun _ => Except.ok false, fun _ => true, fun _ => true, fun _ => true,
          fun _ => true⟩
        [⟨"svc", ["src"], "make", "out", "dep", "svc"⟩]).1 = []
    ∧ ∃ e, (runDoDeploys
        ⟨⟨Except.ok "w", fun _ => true, fun _ _ => Except.ok "L",
            fun _ => Except.ok "deadbeef\n"⟩,
          ⟨"app", "root", [⟨"svc", ["src"], "make", "out", "dep", "svc"⟩], []⟩,
          fun _ => Except.ok false, fun _ => true, fun _ => true, fun _ => true,
          fun _ => true⟩
        [⟨"svc", ["src"], "make", "out", "dep", "svc"⟩]).2 = .error e :=
  deploy_missing_no_actions _ _ ⟨"svc", ["src"], "make", "out", "dep", "svc"⟩
    "svc-deadbeef.tar.gz" (by simp) rfl rfl

/-- Claim C5: any temp-file, retrieval, directory-creation or unpack
failure on one unit is fatal: the invocation errors and no retrieval or
unpack is performed for any remaining unit (no skip-and-continue); a
missing artifact is likewise fatal for the whole invocation (C9 covers
that no action happens at all in that case). -/
theorem deploy_failure_fatal (env : DeployEnv) (pre post : List ArtifactConfig)
    (a : ArtifactConfig)
    (hnd : ((pre ++ a :: post).map ArtifactConfig.name).Nodup)
    (hpre : ∀ c ∈ pre, env.tempOk c.name = true
      ∧ env.mkdirOk c.deployLocation = true ∧ env.unzipOk c.name = true
      ∧ ∀ cn, GetArtifactName env.hash c.name env.cfg = .ok cn →
          env.retrieveOk cn = true)
    (hfail : env.tempOk a.name = false
      ∨ (∀ an, GetArtifactName env.hash a.name env.cfg = .ok an →
          env.retrieveOk an = false)
      ∨ env.mkdirOk a.deployLocation = false
      ∨ env.unzipOk a.name = false) :
    (∃ e, (runDoDeploys env (pre ++ a :: post)).2 = .error e)
    ∧ ∀ c ∈ post,
        DeployEvent.retrieve c.name ∉ (runDoDeploys env (pre ++ a :: post)).1
        ∧ DeployEvent.unpack c.name ∉ (runDoDeploys env (pre ++ a :: post)).1 := by
  have hne : ¬((pre ++ a :: post).isEmpty = true) := by
    simp
  unfold runDoDeploys
  rw [if_neg hne]
  cases hp : deployPhase1 env (pre ++ a :: post) (fun _ => "") with
  | error e =>
    refine ⟨⟨e, rfl⟩, ?_⟩
    intro c hc
    constructor
    · intro hmem
      simp at hmem
    · intro hmem
      simp at hmem
  | ok names =>
    have hgan := deployPhase1_ok_gan env (pre ++ a :: post) _ names hp
    have hpre2 : ∀ c ∈ pre, env.tempOk c.name = true
        ∧ env.mkdirOk c.deployLocation = true ∧ env.unzipOk c.name = true
        ∧ env.retrieveOk (names c.name) = true := by
      intro c hc
      obtain ⟨h1, h2, h3, h4⟩ := hpre c hc
      obtain ⟨cn, hcn⟩ := hgan c (List.mem_append_left _ hc)
      have hlook := deployPhase1_lookup env (pre ++ a :: post) _ names c cn hnd hp
        (List.mem_append_left _ hc) hcn
      exact ⟨h1, h2, h3, by rw [hlook]; exact h4 cn hcn⟩
    have hfail2 : env.tempOk a.name = false ∨ env.retrieveOk (names a.name) = false
        ∨ env.mkdirOk a.deployLocation = false ∨ env.unzipOk a.name = false := by
      rcases hfail with h | h | h | h
      · exact Or.inl h
      · obtain ⟨an, hga⟩ := hgan a (by simp)
        have hlook := deployPhase1_lookup env (pre ++ a :: post) _ names a an hnd hp
          (by simp) hga
        exact Or.inr (Or.inl (by rw [hlook]; exact h an hga))
      · exact Or.inr (Or.inr (Or.inl h))
      · exact Or.inr (Or.inr (Or.inr h))
    obtain ⟨herr, hev⟩ := deployPhase2_abort env names pre post a hpre2 hfail2
    refine ⟨herr, ?_⟩
    have hnd2 := hnd
    rw [List.map_append, List.map_cons, List.nodup_append] at hnd2
    obtain ⟨hndpre, hndcons, hdisj⟩ := hnd2
    intro c hc
    have hcpost : c.name ∈ post.map ArtifactConfig.name :=
      List.mem_map_of_mem _ hc
    have hcna : c.name ≠ a.name := by
      intro hh
      exact (List.nodup_cons.mp hndcons).1 (hh ▸ hcpost)
    have hcnp : c.name ∉ pre.map ArtifactConfig.name := by
      intro hh
      exact hdisj hh (List.mem_cons_of_mem _ hcpost)
    constructor
    · intro hmem
      rcases hev _ hmem with hh | hh
      · exact hcnp hh
      · exact hcna hh
    · intro hmem
      rcases hev _ hmem with hh | hh
      · exact hcnp hh
      · exact hcna hh

/-- Witness for C5: unit u1 fails at temp-file creation, so the run errors
and the later unit u2 is neither retrieved nor unpacked. -/
theorem deploy_failure_fatal_witness :
    (∃ e, (runDoDeploys
        ⟨⟨Except.ok "w", fun _ => true, fun _ _ => Except.ok "L",
            fun _ => Except.ok "deadbeef\n"⟩,
          ⟨"app", "root",
            [⟨"u1", ["s"], "c1", "o", "d1", "p1"⟩,
              ⟨"u2", ["s"], "c2", "o", "d2", "p2"⟩], []⟩,
          fun _ => Except.ok true, fun u => !(u == "u1"), fun _ => true,
          fun _ => true, fun _ => true⟩
        ([] ++ ⟨"u1", ["s"], "c1", "o", "d1", "p1"⟩ ::
          [⟨"u2", ["s"], "c2", "o", "d2", "p2"⟩])).2 = .error e)
    ∧ DeployEvent.retrieve "u2" ∉ (runDoDeploys
        ⟨⟨Except.ok "w", fun _ => true, fun _ _ => Except.ok "L",
            fun _ => Except.ok "deadbeef\n"⟩,
          ⟨"app", "root",
            [⟨"u1", ["s"], "c1", "o", "d1", "p1"⟩,
              ⟨"u2", ["s"], "c2", "o", "d2", "p2"⟩], []⟩,
          fun _ => Except.ok true, fun u => !(u == "u1"), fun _ => true,
          fun _ => true, fun _ => true⟩
        ([] ++ ⟨"u1", ["s"], "c1", "o", "d1", "p1"⟩ ::
          [⟨"u2", ["s"], "c2", "o", "d2", "p2"⟩])).1 := by
  have h := deploy_failure_fatal
      ⟨⟨Except.ok "w", fun _ => true, fun _ _ => Except.ok "L",
          fun _ => Except.ok "deadbeef\n"⟩,
        ⟨"app", "root",
          [⟨"u1", ["s"], "c1", "o", "d1", "p1"⟩,
            ⟨"u2", ["s"], "c2", "o", "d2", "p2"⟩], []⟩,
        fun _ => Except.ok true, fun u => !(u == "u1"), fun _ => true,
        fun _ => true, fun _ => true⟩
      [] [⟨"u2", ["s"], "c2", "o", "d2", "p2"⟩]
      ⟨"u1", ["s"], "c1", "o", "d1", "p1"⟩
      (by simp) (fun c hc => absurd hc (by simp)) (Or.inl rfl)
  exact ⟨h.1, (h.2 ⟨"u2", ["s"], "c2", "o", "d2", "p2"⟩ (by simp)).1⟩

/-! ## Archive codec (zipDirectory in cmd/doBuilds.go; unzipFile and
extractTarFile in cmd/doDeploys.go)

A source tree is a finite tree of directories and regular files (mode bits
and byte content); sibling names in one directory are unique on a real
filesystem, captured by the well-formedness predicate.  zipDirectory walks
the tree depth-first from the root (relative path [] standing for the Go
relative path dot), emitting one tar header per entry; unzipFile replays
the entries in archive order against a destination filesystem. -/

/-- Typeflag of a tar header: directory, regular file, or anything else
(symlinks and special files, skipped on extraction). -/
inductive TarType where
  | dir
  | reg
  | other
deriving DecidableEq, Repr

/-- One tar entry: relative path, typeflag, mode bits and content. -/
structure TarEntry where
  name : List String
  typeflag : TarType
  mode : Nat
  content : List Nat
deriving DecidableEq, Repr

mutual
/-- A directory tree: a regular file with mode and content, or a directory
with mode and named children. -/
inductive DirTree where
  | file (mode : Nat) (content : List Nat) : DirTree
  | dir (mode : Nat) (entries : DirEntries) : DirTree
/-- The named children of a directory, in walk order. -/
inductive DirEntries where
  | nil : DirEntries
  | cons (childName : String) (tree : DirTree) (rest : DirEntries) : DirEntries
end

mutual
/-- The tar entries filepath.Walk emits for a subtree rooted at the
relative path rel: the entry itself first, then each child subtree. -/
def walkTree (rel : List String) : DirTree → List TarEntry
  | .file m c => [⟨rel, .reg, m, c⟩]
  | .dir m es => ⟨rel, .dir, m, []⟩ :: walkForest rel es
/-- The tar entries for a list of named children. -/
def walkForest (rel : List String) : DirEntries → List TarEntry
  | .nil => []
  | .cons n t rest => walkTree (rel ++ [n]) t ++ walkForest rel rest
end

/-- Mirrors zipDirectory: walk the source directory from its root and
write each entry to the tar.gz archive. -/
def zipDirectory (t : DirTree) : List TarEntry := walkTree [] t

/-- Mirrors extractTarFile: a directory entry becomes MkdirAll (fixed 0755
mode); a regular entry gets its parent directories created and is written
with the header mode and content; other typeflags are skipped. -/
def extractTarFile (destDir : List String) (fs : FS) (e : TarEntry) : FS :=
  match e.typeflag with
  | .dir => fs.mkdirAll (destDir ++ e.name)
  | .reg =>
    (fs.mkdirAll (destDir ++ e.name).dropLast).createWith (destDir ++ e.name)
      e.mode e.content
  | .other => fs

/-- Sequential extraction of a list of tar entries (the tar-reader loop). -/
def extractList (destDir : List String) (fs : FS) (l : List TarEntry) : FS :=
  l.foldl (extractTarFile destDir) fs

/-- Mirrors unzipFile: create the destination directory, then extract each
archive entry in order. -/
def unzipFile (archive : List TarEntry) (destDir : List String) (fs : FS) : FS :=
  extractList destDir (fs.mkdirAll destDir) archive

/-- Whether a child of the given name occurs in the entry list. -/
def hasName : DirEntries → String → Bool
  | .nil, _ => false
  | .cons m _ rest, n => (m == n) || hasName rest n

mutual
/-- Well-formedness: sibling names are unique throughout the tree (true of
any tree read off a real filesystem). -/
def wfTree : DirTree → Bool
  | .file _ _ => true
  | .dir _ es => wfForest es
/-- Well-formedness of a child list. -/
def wfForest : DirEntries → Bool
  | .nil => true
  | .cons n t rest => (!hasName rest n) && wfTree t && wfForest rest
end

mutual
/-- The regular file of the tree at a relative path, with mode and bytes. -/
def treeFile : DirTree → List String → Option (Nat × List Nat)
  | .file m c, [] => some (m, c)
  | .file _ _, _ :: _ => none
  | .dir _ _, [] => none
  | .dir _ es, n :: p => forestFile es n p
/-- Lookup of a path below a named child of a directory. -/
def forestFile : DirEntries → String → List String → Option (Nat × List Nat)
  | .nil, _, _ => none
  | .cons m t rest, n, p => if m == n then treeFile t p else forestFile rest n p
end

/-! ### Helper lemmas for the archive codec -/

theorem fileAt_createWith_none (fs : FS) (p : List String) (m : Nat) (c : List Nat)
    (h : fs.fileAt p = none) : (fs.createWith p m c).fileAt p = some (m, c) := by
  unfold FS.createWith
  rw [h]
  exact fileAt_cons_self fs.files fs.dirs p (m, c)

theorem fileAt_extractTarFile_ne (destDir : List String) (fs : FS) (e : TarEntry)
    (q : List String) (h : destDir ++ e.name ≠ q) :
    (extractTarFile destDir fs e).fileAt q = fs.fileAt q := by
  unfold extractTarFile
  cases ht : e.typeflag
  · exact fileAt_mkdirAll fs (destDir ++ e.name) q
  · rw [fileAt_createWith_ne _ _ _ _ _ (fun hh => h hh.symm)]
    exact fileAt_mkdirAll fs (destDir ++ e.name).dropLast q
  · rfl

theorem fileAt_extractList_ne (destDir : List String) (fs : FS)
    (l : List TarEntry) (q : List String)
    (h : ∀ e ∈ l, destDir ++ e.name ≠ q) :
    (extractList destDir fs l).fileAt q = fs.fileAt q := by
  induction l generalizing fs with
  | nil => rfl
  | cons e rest ih =>
    show (extractList destDir (extractTarFile destDir fs e) rest).fileAt q = _
    rw [ih _ (fun x hx => h x (List.mem_cons_of_mem _ hx)),
      fileAt_extractTarFile_ne destDir fs e q (h e (List.mem_cons_self _ _))]

theorem extractList_append (destDir : List String) (fs : FS)
    (l1 l2 : List TarEntry) :
    extractList destDir fs (l1 ++ l2) =
      extractList destDir (extractList destDir fs l1) l2 := by
  unfold extractList
  rw [List.foldl_append]

mutual
theorem walkTree_name_shape (rel : List String) (t : DirTree) (e : TarEntry)
    (he : e ∈ walkTree rel t) : ∃ s, e.name = rel ++ s := by
  cases t with
  | file m c =>
    simp only [walkTree, List.mem_singleton] at he
    exact ⟨[], by rw [he]; simp⟩
  | dir m es =>
    simp only [walkTree, List.mem_cons] at he
    rcases he with h | h
    · exact ⟨[], by rw [h]; simp⟩
    · obtain ⟨nm, s, _, hname⟩ := walkForest_name_shape rel es e h
      exact ⟨nm :: s, by rw [hname]⟩
theorem walkForest_name_shape (rel : List String) (es : DirEntries) (e : TarEntry)
    (he : e ∈ walkForest rel es) :
    ∃ nm s, hasName es nm = true ∧ e.name = rel ++ nm :: s := by
  cases es with
  | nil => simp [walkForest] at he
  | cons nm t rest =>
    simp only [walkForest, List.mem_append] at he
    rcases he with h | h
    · obtain ⟨s, hs⟩ := walkTree_name_shape (rel ++ [nm]) t e h
      exact ⟨nm, s, by simp [hasName], by rw [hs]; simp⟩
    · obtain ⟨nm2, s, hhas, hname⟩ := walkForest_name_shape rel rest e h
      exact ⟨nm2, s, by simp [hasName, hhas], hname⟩
end

mutual
theorem extract_walkTree (destDir rel p : List String) (t : DirTree)
    (m : Nat) (c : List Nat) (fs : FS)
    (hwf : wfTree t = true) (hfile : treeFile t p = some (m, c))
    (hnone : fs.fileAt (destDir ++ rel ++ p) = none) :
    (extractList destDir fs (walkTree rel t)).fileAt (destDir ++ rel ++ p) =
      some (m, c) := by
  cases t with
  | file m0 c0 =>
    cases p with
    | nil =>
      have hm : m0 = m ∧ c0 = c := by
        simpa [treeFile] using hfile
      show (extractTarFile destDir fs ⟨rel, TarType.reg, m0, c0⟩).fileAt
        (destDir ++ rel ++ []) = some (m, c)
      unfold extractTarFile
      dsimp only
      rw [List.append_nil] at hnone ⊢
      rw [fileAt_createWith_none]
      · rw [hm.1, hm.2]
      · rw [fileAt_mkdirAll]
        exact hnone
    | cons x xs => simp [treeFile] at hfile
  | dir m0 es =>
    cases p with
    | nil => simp [treeFile] at hfile
    | cons n p2 =>
      have hfile2 : forestFile es n p2 = some (m, c) := hfile
      show (extractList destDir
        (extractTarFile destDir fs ⟨rel, TarType.dir, m0, []⟩)
        (walkForest rel es)).fileAt (destDir ++ rel ++ n :: p2) = some (m, c)
      apply extract_walkForest destDir rel n p2 es m c _ hwf hfile2
      show (fs.mkdirAll (destDir ++ rel)).fileAt (destDir ++ rel ++ n :: p2) = none
      rw [fileAt_mkdirAll]
      exact hnone
theorem extract_walkForest (destDir rel : List String) (n : String)
    (p : List String) (es : DirEntries) (m : Nat) (c : List Nat) (fs : FS)
    (hwf : wfForest es = true) (hfile : forestFile es n p = some (m, c))
    (hnone : fs.fileAt (destDir ++ rel ++ n :: p) = none) :
    (extractList destDir fs (walkForest rel es)).fileAt
      (destDir ++ rel ++ n :: p) = some (m, c) := by
  cases es with
  | nil => simp [forestFile] at hfile
  | cons nm t rest =>
    rw [show wfForest (.cons nm t rest)
        = ((!hasName rest nm) && wfTree t && wfForest rest) from rfl,
      Bool.and_eq_true, Bool.and_eq_true] at hwf
    obtain ⟨⟨hnodup, hwft⟩, hwfr⟩ := hwf
    rw [show walkForest rel (.cons nm t rest)
        = walkTree (rel ++ [nm]) t ++ walkForest rel rest from rfl,
      extractList_append]
    by_cases hnm : nm = n
    · subst hnm
      have hfile2 : treeFile t p = some (m, c) := by
        simpa [forestFile] using hfile
      have haddr : destDir ++ (rel ++ [nm]) ++ p = destDir ++ rel ++ nm :: p := by
        simp
      have h1 := extract_walkTree destDir (rel ++ [nm]) p t m c fs hwft hfile2
        (by rw [haddr]; exact hnone)
      rw [haddr] at h1
      rw [fileAt_extractList_ne]
      · exact h1
      · intro e hee heq
        obtain ⟨nm2, s, hhas, hname⟩ := walkForest_name_shape rel rest e hee
        rw [hname] at heq
        have heq2 : destDir ++ rel ++ nm2 :: s = destDir ++ rel ++ nm :: p := by
          rw [← heq]
          simp
        have hcons := List.append_cancel_left heq2
        injection hcons with hhead htail
        rw [hhead] at hhas
        rw [hhas] at hnodup
        simp at hnodup
    · have hfile2 : forestFile rest n p = some (m, c) := by
        simpa [forestFile, beq_iff_eq, hnm] using hfile
      have hpres : (extractList destDir fs (walkTree (rel ++ [nm]) t)).fileAt
          (destDir ++ rel ++ n :: p) = none := by
        rw [fileAt_extractList_ne]
        · exact hnone
        · intro e hee heq
          obtain ⟨s, hs⟩ := walkTree_name_shape (rel ++ [nm]) t e hee
          rw [hs] at heq
          have heq2 : destDir ++ rel ++ nm :: s = destDir ++ rel ++ n :: p := by
            rw [← heq]
            simp
          have hcons := List.append_cancel_left heq2
          injection hcons with hhead htail
          exact hnm hhead
      exact extract_walkForest destDir rel n p rest m c _ hwfr hfile2 hpres
end

/-- Claim C4: packing a directory tree with zipDirectory and unpacking the
archive with unzipFile into an empty destination is a round trip: every
regular file of the source tree reappears under the destination at the
same relative path with byte-identical content and the same mode bits. -/
theorem pack_unpack_roundtrip (t : DirTree) (destDir p : List String)
    (m : Nat) (c : List Nat)
    (hwf : wfTree t = true) (hfile : treeFile t p = some (m, c)) :
    (unzipFile (zipDirectory t) destDir emptyFS).fileAt (destDir ++ p) =
      some (m, c) := by
  unfold unzipFile zipDirectory
  have h := extract_walkTree destDir [] p t m c (emptyFS.mkdirAll destDir)
    hwf hfile (by rw [fileAt_mkdirAll]; rfl)
  simpa using h

/-- Witness for C4: a two-level tree with files a and b/x round-trips; the
nested file keeps its bytes and mode at the same relative path. -/
theorem pack_unpack_roundtrip_witness :
    (unzipFile (zipDirectory
        (DirTree.dir 493 (DirEntries.cons "a" (DirTree.file 420 [7, 7])
          (DirEntries.cons "b" (DirTree.dir 493
            (DirEntries.cons "x" (DirTree.file 400 [1]) DirEntries.nil))
            DirEntries.nil))))
        ["dst"] emptyFS).fileAt (["dst"] ++ ["b", "x"]) = some (400, [1]) :=
  pack_unpack_roundtrip
    (DirTree.dir 493 (DirEntries.cons "a" (DirTree.file 420 [7, 7])
      (DirEntries.cons "b" (DirTree.dir 493
        (DirEntries.cons "x" (DirTree.file 400 [1]) DirEntries.nil))
        DirEntries.nil)))
    ["dst"] ["b", "x"] 400 [1] (by decide) (by decide)
